import Mathlib

/-!
Verification of the redis-caching repository: a cache-aside layer consisting of
a cache-key builder, a resilient Redis client wrapper, a cache interceptor that
wraps request handlers, and a cache-metrics service.

Strings are modelled as lists of characters (`Str`), JS values that can be
cached are modelled by a JSON value tree (`Json`), and the JS builtins
`JSON.stringify` / `JSON.parse` are modelled by an executable encoder `jstr`
and an executable recursive-descent parser `jparse`.  JS numbers are modelled
as integers (the repository only caches records whose numeric fields are
integral) and exceptions are modelled with the `Except` monad.
-/

namespace RedisCaching

/-- Strings, modelled as lists of characters. -/
abbrev Str := List Char

/-- The opening curly-brace character used by the JSON syntax. -/
def obrace : Char := Char.ofNat 123

/-- The closing curly-brace character used by the JSON syntax. -/
def cbrace : Char := Char.ofNat 125

/-- JSON-representable values: the domain on which the JS builtins
`JSON.stringify` and `JSON.parse` operate. -/
inductive Json where
  | null : Json
  | bool : Bool → Json
  | num : Int → Json
  | str : Str → Json
  | arr : List Json → Json
  | obj : List (Str × Json) → Json

/-- The decimal digit character for a value below ten. -/
def digitChar (n : Nat) : Char := Char.ofNat (48 + n)

/-- Accumulator-passing decimal encoder; the fuel argument only serves
termination and any fuel above the number suffices. -/
def encNatAux : Nat → Nat → Str → Str
  | 0, _, acc => acc
  | fuel + 1, n, acc =>
    if n < 10 then digitChar n :: acc
    else encNatAux fuel (n / 10) (digitChar (n % 10) :: acc)

/-- Decimal representation of a natural number, most significant digit
first; models the JS `Number.prototype.toString` on naturals. -/
def encNat (n : Nat) : Str := encNatAux (n + 1) n []

/-- Decimal representation of an integer (a minus sign for negatives). -/
def encInt (n : Int) : Str :=
  if n < 0 then '-' :: encNat n.natAbs else encNat n.toNat

/-- JSON string escaping of one character (quote and backslash are escaped). -/
def escChar (c : Char) : Str :=
  if c = '"' ∨ c = '\\' then ['\\', c] else [c]

/-- JSON string escaping. -/
def escStr : Str → Str
  | [] => []
  | c :: s => escChar c ++ escStr s

/-- The rendering of the JSON literal `null`. -/
def nullLit : Str := ['n', 'u', 'l', 'l']

/-- The rendering of the JSON literal `true`. -/
def trueLit : Str := ['t', 'r', 'u', 'e']

/-- The rendering of the JSON literal `false`. -/
def falseLit : Str := ['f', 'a', 'l', 's', 'e']

mutual

/-- Model of the JS builtin `JSON.stringify` on JSON-representable values. -/
def jstr : Json → Str
  | .null => nullLit
  | .bool true => trueLit
  | .bool false => falseLit
  | .num n => encInt n
  | .str s => '"' :: (escStr s ++ ['"'])
  | .arr [] => ['[', ']']
  | .arr (x :: xs) => '[' :: (jstr x ++ jstrTail xs)
  | .obj [] => [obrace, cbrace]
  | .obj ((k, v) :: ms) =>
    obrace :: '"' :: (escStr k ++ '"' :: ':' :: (jstr v ++ jstrMTail ms))
termination_by structural j => j

/-- Comma-separated continuation of a JSON array body, ending in `]`. -/
def jstrTail : List Json → Str
  | [] => [']']
  | x :: xs => ',' :: (jstr x ++ jstrTail xs)
termination_by structural l => l

/-- Comma-separated continuation of a JSON object body, ending in the
closing brace. -/
def jstrMTail : List (Str × Json) → Str
  | [] => [cbrace]
  | (k, v) :: ms => ',' :: '"' :: (escStr k ++ '"' :: ':' :: (jstr v ++ jstrMTail ms))
termination_by structural l => l

end

/-- One `"key":value` member of a JSON object, as emitted inside `jstr`. -/
def jstrMem (k : Str) (v : Json) : Str :=
  '"' :: (escStr k ++ '"' :: ':' :: jstr v)

/-- Numeric value of a decimal digit character. -/
def dval (c : Char) : Nat := c.toNat - 48

/-- Value of a string of decimal digits. -/
def decDigits (ds : Str) : Nat := ds.foldl (fun a c => 10 * a + dval c) 0

/-- Split off the longest prefix of decimal digits. -/
def takeDigits : Str → Str × Str
  | [] => ([], [])
  | c :: r =>
    if c.isDigit then
      let p := takeDigits r
      (c :: p.1, p.2)
    else ([], c :: r)

/-- Parse a JSON number (an optional minus sign and a run of digits). -/
def parseNum (s : Str) : Option (Json × Str) :=
  if s.head? = some '-' then
    let p := takeDigits s.tail
    if p.1 = [] then none else some (.num (-(decDigits p.1 : Int)), p.2)
  else
    let p := takeDigits s
    if p.1 = [] then none else some (.num (decDigits p.1 : Int), p.2)

/-- Parse the body of a JSON string after the opening quote, undoing the
escaping, up to the closing quote.  Fuel-indexed for termination. -/
def parseStrChars : Nat → Str → Option (Str × Str)
  | 0, _ => none
  | _ + 1, [] => none
  | fuel + 1, c :: r =>
    if c = '"' then some ([], r)
    else if c = '\\' then
      match r with
      | [] => none
      | d :: r2 =>
        match parseStrChars fuel r2 with
        | some (cs, r3) => some (d :: cs, r3)
        | none => none
    else
      match parseStrChars fuel r with
      | some (cs, r3) => some (c :: cs, r3)
      | none => none

mutual

/-- Recursive-descent parse of one JSON value; part of the model of the JS
builtin `JSON.parse`.  Fuel-indexed for termination. -/
def parseVal : Nat → Str → Option (Json × Str)
  | 0, _ => none
  | _ + 1, [] => none
  | fuel + 1, c :: r =>
      if c = 'n' then
        if r.take 3 = ['u', 'l', 'l'] then some (.null, r.drop 3) else none
      else if c = 't' then
        if r.take 3 = ['r', 'u', 'e'] then some (.bool true, r.drop 3) else none
      else if c = 'f' then
        if r.take 4 = ['a', 'l', 's', 'e'] then some (.bool false, r.drop 4)
        else none
      else if c = '"' then
        match parseStrChars fuel r with
        | some (cs, r1) => some (.str cs, r1)
        | none => none
      else if c = '[' then
        if r.head? = some ']' then some (.arr [], r.tail)
        else
          match parseVal fuel r with
          | some (v, r1) =>
            match parseTail fuel r1 with
            | some (vs, r2) => some (.arr (v :: vs), r2)
            | none => none
          | none => none
      else if c = obrace then
        if r.head? = some cbrace then some (.obj [], r.tail)
        else
          match parseMem fuel r with
          | some (m, r1) =>
            match parseMTail fuel r1 with
            | some (ms, r2) => some (.obj (m :: ms), r2)
            | none => none
          | none => none
      else if c = '-' ∨ c.isDigit then parseNum (c :: r)
      else none

/-- Parse the continuation of a JSON array body: either `]` or a comma
followed by a value and a further continuation. -/
def parseTail : Nat → Str → Option (List Json × Str)
  | 0, _ => none
  | _ + 1, [] => none
  | fuel + 1, c :: r =>
      if c = ']' then some ([], r)
      else if c = ',' then
        match parseVal fuel r with
        | some (v, r1) =>
          match parseTail fuel r1 with
          | some (vs, r2) => some (v :: vs, r2)
          | none => none
        | none => none
      else none

/-- Parse one `"key":value` member of a JSON object. -/
def parseMem : Nat → Str → Option ((Str × Json) × Str)
  | 0, _ => none
  | _ + 1, [] => none
  | fuel + 1, c :: r =>
      if c = '"' then
        match parseStrChars fuel r with
        | some (k, r1) =>
          if r1.head? = some ':' then
            match parseVal fuel r1.tail with
            | some (v, r3) => some ((k, v), r3)
            | none => none
          else none
        | none => none
      else none

/-- Parse the continuation of a JSON object body: either the closing brace or
a comma followed by a member and a further continuation. -/
def parseMTail : Nat → Str → Option (List (Str × Json) × Str)
  | 0, _ => none
  | _ + 1, [] => none
  | fuel + 1, c :: r =>
      if c = cbrace then some ([], r)
      else if c = ',' then
        match parseMem fuel r with
        | some (m, r1) =>
          match parseMTail fuel r1 with
          | some (ms, r2) => some (m :: ms, r2)
          | none => none
        | none => none
      else none

end

/-- Model of the JS builtin `JSON.parse`: parse a complete JSON document.
`none` models a thrown `SyntaxError` (trailing garbage included). -/
def jparse (s : Str) : Option Json :=
  match parseVal (s.length + 1) s with
  | some (v, []) => some v
  | _ => none

/-- Proof-level specification of the decimal digits of a natural number. -/
def natDigits (n : Nat) : Str :=
  if _h : n < 10 then [digitChar n]
  else natDigits (n / 10) ++ [digitChar (n % 10)]
termination_by n
decreasing_by exact Nat.div_lt_self (by omega) (by omega)

/-- The continuation after an encoded JSON value must not begin with a digit
(otherwise a number before it would absorb more digits). -/
def headOk : Str → Prop
  | [] => True
  | c :: _ => c.isDigit = false

@[simp] theorem headOk_nil : headOk [] := trivial

@[simp] theorem headOk_cons (c : Char) (t : Str) : headOk (c :: t) ↔ c.isDigit = false :=
  Iff.rfl

/-- The characters with which an encoded JSON value can begin, besides
digits. -/
def jsonStarts : Str := ['n', 't', 'f', '"', '[', obrace, '-']

/-! ### `cache-key.util.ts`: CacheKeyBuilder and CacheTTL -/

namespace CacheKeyBuilder

/-- `private static readonly NAMESPACE = 'app'` -/
def NAMESPACE : Str := ['a', 'p', 'p']

/-- `private static readonly VERSION = 'v1'` -/
def VERSION : Str := ['v', '1']

/-- A route identifier is a string or a number (`identifier: string | number`);
template-literal interpolation stringifies it. -/
def idStr : Str ⊕ Int → Str
  | .inl s => s
  | .inr n => encInt n

/-- `build(resource, identifier)`: key of the form
`app:v1:resource:identifier`. -/
def build (resource : Str) (identifier : Str ⊕ Int) : Str :=
  NAMESPACE ++ ':' :: VERSION ++ ':' :: resource ++ ':' :: idStr identifier

/-- `pattern(resource, wildcard = '*')`: key pattern of the form
`app:v1:resource:*`. -/
def pattern (resource : Str) (wildcard : Str := ['*']) : Str :=
  NAMESPACE ++ ':' :: VERSION ++ ':' :: resource ++ ':' :: wildcard

/-- The optional pagination parameters of `buildList`. -/
structure ListParams where
  page : Option Int := none
  limit : Option Int := none

/-- `buildList(resource, params)`: destructuring defaults `page = 1` and
`limit = 10` apply before the key is built. -/
def buildList (resource : Str) (params : ListParams) : Str :=
  NAMESPACE ++ ':' :: VERSION ++ ':' :: resource ++
    (':' :: 'l' :: 'i' :: 's' :: 't' :: ':' :: 'p' :: 'a' :: 'g' :: 'e' :: '-' :: []) ++
    encInt (params.page.getD 1) ++
    (':' :: 'l' :: 'i' :: 'm' :: 'i' :: 't' :: '-' :: []) ++
    encInt (params.limit.getD 10)

end CacheKeyBuilder

/-- `CacheTTL`: per-resource TTLs in seconds. -/
def CacheTTL.USER : Nat := 300

/-- `USER_LIST: 60` seconds. -/
def CacheTTL.USER_LIST : Nat := 60

/-- `ROLE: 3600` seconds. -/
def CacheTTL.ROLE : Nat := 3600

/-! ### Model of the underlying `ioredis` client

The raw client is external code; it is modelled as a key-value store with the
native redis behaviors relevant here: TTL-carrying entries, the global
`keyspace_hits` / `keyspace_misses` counters incremented by `GET`, `DBSIZE`,
`INFO` sections and `CONFIG RESETSTAT`.  The `throwing` flag makes every
command fail, modelling a connection outage; errors are `Except.error`. -/

/-- The newline character separating lines of an `INFO` reply. -/
def nl : Char := '\x0a'

/-- One stored entry: key, value and the TTL it was written with
(`none` when written by plain `SET` without expiry). -/
abbrev KvEntry := Str × Str × Option Nat

def kvLookup : List KvEntry → Str → Option Str
  | [], _ => none
  | (k, v, _) :: rest, key => if k = key then some v else kvLookup rest key

def kvRemove : List KvEntry → Str → List KvEntry
  | [], _ => []
  | (k, v, t) :: rest, key =>
    if k = key then kvRemove rest key else (k, v, t) :: kvRemove rest key

/-- Redis glob matching restricted to the `*` wildcard, which is the only one
the repository's `pattern` builder emits. -/
def globMatch : Str → Str → Bool
  | [], [] => true
  | [], _ :: _ => false
  | '*' :: p, s =>
    globMatch p s ||
      (match s with
       | [] => false
       | _ :: s' => globMatch ('*' :: p) s')
  | _ :: _, [] => false
  | c :: p, d :: s => c = d && globMatch p s
termination_by p s => (p.length, s.length)

/-- The state of the single shared `ioredis` client. -/
structure RawClient where
  kv : List KvEntry
  /-- when true, every command raises (connection refused, timeout, ...) -/
  throwing : Bool
  /-- the backend-global `keyspace_hits` counter -/
  keyspaceHits : Nat
  /-- the backend-global `keyspace_misses` counter -/
  keyspaceMisses : Nat
  /-- the `used_memory_human` value reported by `INFO memory` -/
  memoryHuman : Str

/-- The error a failing command raises. -/
def connErr : Str := ['E', 'C', 'O', 'N', 'N']

/-- `GET key`; a native redis `GET` bumps `keyspace_hits` or
`keyspace_misses`. -/
def RawClient.get (c : RawClient) (key : Str) :
    Except Str (Option Str × RawClient) :=
  if c.throwing then .error connErr
  else
    match kvLookup c.kv key with
    | some v => .ok (some v, { c with keyspaceHits := c.keyspaceHits + 1 })
    | none => .ok (none, { c with keyspaceMisses := c.keyspaceMisses + 1 })

/-- `SETEX key ttl value` (via `client.setex`). -/
def RawClient.setex (c : RawClient) (key : Str) (ttl : Nat) (value : Str) :
    Except Str RawClient :=
  if c.throwing then .error connErr
  else .ok { c with kv := (key, value, some ttl) :: kvRemove c.kv key }

/-- `SET key value` without expiry (via `client.set`). -/
def RawClient.set (c : RawClient) (key : Str) (value : Str) :
    Except Str RawClient :=
  if c.throwing then .error connErr
  else .ok { c with kv := (key, value, none) :: kvRemove c.kv key }

/-- `DEL key...` (via `client.del`). -/
def RawClient.del (c : RawClient) (keys : List Str) : Except Str RawClient :=
  if c.throwing then .error connErr
  else .ok { c with kv := c.kv.filter (fun e => !(keys.contains e.1)) }

/-- `KEYS pattern` (via `client.keys`). -/
def RawClient.keys (c : RawClient) (pat : Str) : Except Str (List Str) :=
  if c.throwing then .error connErr
  else .ok ((c.kv.map (fun e => e.1)).filter (fun k => globMatch pat k))

/-- `DBSIZE` (via `client.dbsize`): the number of keys. -/
def RawClient.dbsize (c : RawClient) : Except Str Nat :=
  if c.throwing then .error connErr
  else .ok c.kv.length

/-- The `keyspace_hits:` label of the `INFO stats` reply. -/
def statsHitsLabel : Str :=
  ['k', 'e', 'y', 's', 'p', 'a', 'c', 'e', '_', 'h', 'i', 't', 's', ':']

/-- The `keyspace_misses:` label of the `INFO stats` reply. -/
def statsMissesLabel : Str :=
  ['k', 'e', 'y', 's', 'p', 'a', 'c', 'e', '_', 'm', 'i', 's', 's', 'e', 's', ':']

/-- The `used_memory_human:` label of the `INFO memory` reply. -/
def memoryLabel : Str :=
  ['u', 's', 'e', 'd', '_', 'm', 'e', 'm', 'o', 'r', 'y', '_', 'h', 'u', 'm', 'a', 'n', ':']

/-- The text of the `INFO stats` reply (restricted to the two lines the
service reads). -/
def infoStatsStr (hits misses : Nat) : Str :=
  statsHitsLabel ++ (encNat hits ++ (nl :: (statsMissesLabel ++ (encNat misses ++ [nl]))))

/-- `INFO stats` (via `client.info('stats')`). -/
def RawClient.infoStats (c : RawClient) : Except Str Str :=
  if c.throwing then .error connErr
  else .ok (infoStatsStr c.keyspaceHits c.keyspaceMisses)

/-- `INFO memory` (via `client.info('memory')`), restricted to the line the
service reads. -/
def RawClient.infoMemory (c : RawClient) : Except Str Str :=
  if c.throwing then .error connErr
  else .ok (memoryLabel ++ c.memoryHuman ++ [nl])

/-- `CONFIG RESETSTAT` (via `client.config('RESETSTAT')`): clears the native
stat counters. -/
def RawClient.configResetstat (c : RawClient) : Except Str RawClient :=
  if c.throwing then .error connErr
  else .ok { c with keyspaceHits := 0, keyspaceMisses := 0 }

/-! ### `redis.service.ts`: RedisService -/

/-- The `RedisService` wrapper: the raw client plus the `isConnected` health
flag maintained by the connection-lifecycle callbacks. -/
structure RedisService where
  client : RawClient
  isConnected : Bool

/-- `getClient()`: returns the raw client, bypassing every safeguard. -/
def RedisService.getClient (s : RedisService) : RawClient := s.client

/-- `isHealthy()`. -/
def RedisService.isHealthy (s : RedisService) : Bool := s.isConnected

/-- `async get(key)`: short-circuits to `null` when unhealthy; `try/catch`
turns a raised error into `null`. -/
def RedisService.get (s : RedisService) (key : Str) :
    Except Str (Option Str × RedisService) :=
  if !s.isHealthy then .ok (none, s)
  else
    match s.client.get key with
    | .ok (v, c') => .ok (v, { s with client := c' })
    | .error _ => .ok (none, s)

/-- `async set(key, value, ttlSeconds?)`: no-op when unhealthy; `if
(ttlSeconds)` picks `setex` for a truthy TTL and plain `set` otherwise;
`try/catch` swallows errors. -/
def RedisService.set (s : RedisService) (key value : Str) (ttlSeconds : Option Nat) :
    Except Str RedisService :=
  if !s.isHealthy then .ok s
  else
    match
      (match ttlSeconds with
       | some t => if t ≠ 0 then s.client.setex key t value else s.client.set key value
       | none => s.client.set key value) with
    | .ok c' => .ok { s with client := c' }
    | .error _ => .ok s

/-- `async del(key)` for a single key or a list; no-op when unhealthy;
`try/catch` swallows errors. -/
def RedisService.del (s : RedisService) (key : Str ⊕ List Str) :
    Except Str RedisService :=
  if !s.isHealthy then .ok s
  else
    match
      (match key with
       | .inr ks => s.client.del ks
       | .inl k => s.client.del [k]) with
    | .ok c' => .ok { s with client := c' }
    | .error _ => .ok s

/-- `async keys(pattern)`: empty list when unhealthy or on error. -/
def RedisService.keys (s : RedisService) (pat : Str) :
    Except Str (List Str) :=
  if !s.isHealthy then .ok []
  else
    match s.client.keys pat with
    | .ok l => .ok l
    | .error _ => .ok []

/-! ### `cache.decorator.ts` and `cache.interceptor.ts` -/

/-- Route or query parameters: a mapping of name to string. -/
abbrev ParamMap := List (Str × Str)

/-- The `CacheConfig` attached to a handler by the `@Cached` decorator. -/
structure CacheConfig where
  ttl : Nat
  keyBuilder : ParamMap → ParamMap → Str

/-- JS truthiness on the modelled values (`if (data)` in the interceptor).
`null` models both `null` and `undefined`. -/
def jsTruthy : Json → Bool
  | .null => false
  | .bool b => b
  | .num n => n != 0
  | .str s => !s.isEmpty
  | .arr _ => true
  | .obj _ => true

/-- The message of the `SyntaxError` thrown by `JSON.parse` on bad input. -/
def parseErrMsg : Str := ['S', 'y', 'n', 't', 'a', 'x', 'E', 'r', 'r', 'o', 'r']

/-- The observable outcome of one `intercept` call.  `handlerInvoked` records
whether `next.handle()` ran; `recordedHit` / `recordedMiss` record whether
the interceptor called the metrics service's `recordHit` / `recordMiss`
(the source interceptor only writes debug log lines, so these are set on no
path). -/
structure InterceptResult where
  response : Json
  handlerInvoked : Bool
  recordedHit : Bool
  recordedMiss : Bool
  redis : RedisService

/-- The populate step of the interceptor's miss path: run the handler, then
in the `tap` callback cache the result when it is truthy
(`if (data) await this.redis.set(cacheKey, JSON.stringify(data), ttl)`). -/
def populateStep (cfg : CacheConfig) (cacheKey : Str) (redis1 : RedisService)
    (handler : Json) : Except Str InterceptResult :=
  if jsTruthy handler then
    match redis1.set cacheKey (jstr handler) (some cfg.ttl) with
    | .ok redis2 =>
      .ok { response := handler, handlerInvoked := true, recordedHit := false,
            recordedMiss := false, redis := redis2 }
    | .error e => .error e
  else
    .ok { response := handler, handlerInvoked := true, recordedHit := false,
          recordedMiss := false, redis := redis1 }

/-- `CacheInterceptor.intercept`, as one request-level state transformer.
`cacheConfig` is the reflector lookup's result, `handler` the value
`next.handle()` would produce, and the JS `await`/`throw` structure is the
`Except` monad: an `Except.error` is an exception escaping `intercept`. -/
def intercept (cacheConfig : Option CacheConfig) (params query : ParamMap)
    (redis : RedisService) (handler : Json) : Except Str InterceptResult :=
  match cacheConfig with
  | none =>
    .ok { response := handler, handlerInvoked := true, recordedHit := false,
          recordedMiss := false, redis := redis }
  | some cfg =>
    let cacheKey := cfg.keyBuilder params query
    match redis.get cacheKey with
    | .error e => .error e
    | .ok (cachedData, redis1) =>
      match cachedData with
      | some (c :: cs) =>
        -- `if (cachedData)`: a non-null, non-empty string is truthy
        match jparse (c :: cs) with
        | some v =>
          .ok { response := v, handlerInvoked := false, recordedHit := false,
                recordedMiss := false, redis := redis1 }
        | none => .error parseErrMsg   -- JSON.parse throws; intercept has no try/catch
      | some [] => populateStep cfg cacheKey redis1 handler
      | none => populateStep cfg cacheKey redis1 handler

/-! ### `cache-metrics.service.ts`: CacheMetricsService -/

/-- Model of the regex search `/label(\d+)/` used on the `INFO stats` text:
scan for the first occurrence of the label followed by at least one digit and
return the digit run. -/
def digitRunAfter (pat s : Str) : Option Str :=
  if pat.isPrefixOf s then
    match s.drop pat.length with
    | d :: r => if d.isDigit then some (takeDigits (d :: r)).1 else none
    | [] => none
  else none

def matchCounter (pat : Str) : Str → Option Str
  | [] => none
  | c :: rest =>
    match digitRunAfter pat (c :: rest) with
    | some ds => some ds
    | none => matchCounter pat rest

/-- `parseInt(match?.[1] || '0')`: the captured digits, or 0 on no match. -/
def counterValue (pat text : Str) : Nat :=
  match matchCounter pat text with
  | some ds => decDigits ds
  | none => 0

/-- The whitespace characters removed by `String.prototype.trim`. -/
def isSpaceChar (c : Char) : Bool :=
  c = ' ' || c = '\x09' || c = nl || c = '\x0d'

/-- `String.prototype.trim`. -/
def jsTrim (s : Str) : Str :=
  ((s.dropWhile isSpaceChar).reverse.dropWhile isSpaceChar).reverse

/-- Model of the regex search `/label(.+)/`: the first occurrence of the
label followed by a nonempty run of characters up to the end of the line. -/
def matchToEOL (pat : Str) : Str → Option Str
  | [] => none
  | c :: rest =>
    if pat.isPrefixOf (c :: rest) then
      match ((c :: rest).drop pat.length).takeWhile (fun ch => !(ch == nl)) with
      | [] => matchToEOL pat rest
      | d :: ds => some (d :: ds)
    else matchToEOL pat rest

/-- `'Unknown'`. -/
def unknownStr : Str := ['U', 'n', 'k', 'n', 'o', 'w', 'n']

/-- `getMemoryUsage()`: reads `INFO memory` on the raw client and extracts
`used_memory_human`, trimmed, defaulting to `'Unknown'`
(`match?.[1]?.trim() || 'Unknown'`). -/
def getMemoryUsage (client : RawClient) : Except Str Str :=
  match client.infoMemory with
  | .error e => .error e
  | .ok info =>
    match matchToEOL memoryLabel info with
    | some cap =>
      let t := jsTrim cap
      .ok (if t.isEmpty then unknownStr else t)
    | none => .ok unknownStr

/-- `toFixed(2)` followed by `parseFloat`: the rate rounded to two decimal
places, half up (numbers modelled as exact rationals; the rates produced
here are nonnegative).  `(q * 100 + 1/2).num / (q * 100 + 1/2).den` is the
floor of `q * 100 + 1/2` for the nonnegative values involved. -/
def round2 (q : ℚ) : ℚ :=
  (((q * 100 + 1 / 2).num / ((q * 100 + 1 / 2).den : ℤ) : ℤ) : ℚ) / 100

/-- The `CacheMetrics` snapshot returned by `getMetrics`. -/
structure CacheMetrics where
  hits : Nat
  misses : Nat
  hitRate : ℚ
  totalKeys : Nat
  memoryUsed : Str
deriving DecidableEq

/-- The `CacheMetricsService`: the injected `RedisService` plus the
process-local advisory counters. -/
structure CacheMetricsService where
  redis : RedisService
  hits : Nat
  misses : Nat

/-- `recordHit()`. -/
def CacheMetricsService.recordHit (svc : CacheMetricsService) : CacheMetricsService :=
  { svc with hits := svc.hits + 1 }

/-- `recordMiss()`. -/
def CacheMetricsService.recordMiss (svc : CacheMetricsService) : CacheMetricsService :=
  { svc with misses := svc.misses + 1 }

/-- `getMetrics()`: reads `INFO stats` and `DBSIZE` on the raw client
(obtained through `getClient()`, so without any health check or try/catch),
parses the backend's global counters out of the info text, and derives the
snapshot from them — not from the process-local counters. -/
def CacheMetricsService.getMetrics (svc : CacheMetricsService) :
    Except Str CacheMetrics :=
  let client := svc.redis.getClient
  match client.infoStats with
  | .error e => .error e
  | .ok info =>
    match client.dbsize with
    | .error e => .error e
    | .ok dbSize =>
      let redisHits := counterValue statsHitsLabel info
      let redisMisses := counterValue statsMissesLabel info
      let totalRequests := redisHits + redisMisses
      let hitRate : ℚ :=
        if totalRequests > 0 then ((redisHits : ℚ) / (totalRequests : ℚ)) * 100 else 0
      match getMemoryUsage client with
      | .error e => .error e
      | .ok mem =>
        .ok { hits := redisHits, misses := redisMisses, hitRate := round2 hitRate,
              totalKeys := dbSize, memoryUsed := mem }

/-- `resetMetrics()`: `CONFIG RESETSTAT` on the raw client (again through
`getClient()`), then clears the process-local counters. -/
def CacheMetricsService.resetMetrics (svc : CacheMetricsService) :
    Except Str CacheMetricsService :=
  let client := svc.redis.getClient
  match client.configResetstat with
  | .error e => .error e
  | .ok client2 =>
    .ok { redis := { svc.redis with client := client2 }, hits := 0, misses := 0 }

/-! ### Concrete fixtures used to evaluate the model on specific requests -/

/-- A key lookup that also reports the TTL the entry was stored with. -/
def kvLookupE : List KvEntry → Str → Option (Str × Option Nat)
  | [], _ => none
  | (k, v, t) :: rest, key => if k = key then some (v, t) else kvLookupE rest key

/-- A sample `used_memory_human` value. -/
def memSample : Str := ['1', '.', '0', '5', 'M']

/-- The key of the route `GET /users/1`: `app:v1:user:1`. -/
def keySample : Str := CacheKeyBuilder.build ['u', 's', 'e', 'r'] (.inl ['1'])

/-- The cache policy of the `findOne` handler, with its key fixed to the
request for user 1. -/
def cfgSample : CacheConfig :=
  { ttl := CacheTTL.USER, keyBuilder := fun _ _ => keySample }

/-- A healthy, empty backend. -/
def clientEmpty : RawClient :=
  { kv := [], throwing := false, keyspaceHits := 0, keyspaceMisses := 0,
    memoryHuman := memSample }

def redisHealthy : RedisService := { client := clientEmpty, isConnected := true }

/-- Bytes under the user key that are not valid JSON. -/
def corruptPayload : Str := ['n', 'o', 't', ' ', 'j', 's', 'o', 'n']

def redisCorrupt : RedisService :=
  { client := { clientEmpty with kv := [(keySample, corruptPayload, some 300)] },
    isConnected := true }

/-- A handler response: the record of user 1. -/
def userValue : Json := .obj [(['i', 'd'], .num 1), (['n', 'a', 'm', 'e'], .str ['A'])]

def redisHit : RedisService :=
  { client := { clientEmpty with kv := [(keySample, jstr userValue, some 300)] },
    isConnected := true }

/-- A disconnected backend whose commands would also all fail. -/
def redisDown : RedisService :=
  { client := { clientEmpty with throwing := true }, isConnected := false }

/-- A backend with native counters 1 hit / 2 misses. -/
def clientStats : RawClient :=
  { kv := [], throwing := false, keyspaceHits := 1, keyspaceMisses := 2,
    memoryHuman := memSample }

/-- A metrics service whose process-local counters deliberately differ from
the backend's native counters. -/
def svcStats : CacheMetricsService :=
  { redis := { client := clientStats, isConnected := true }, hits := 5, misses := 7 }

/-- A metrics service over a failing backend connection. -/
def svcThrowing : CacheMetricsService :=
  { redis := { client := { clientStats with throwing := true }, isConnected := true },
    hits := 0, misses := 0 }

/-- A metrics service over a backend marked unhealthy but still answering. -/
def svcDisconnected : CacheMetricsService :=
  { redis := { client := clientStats, isConnected := false }, hits := 0, misses := 0 }

/-! ### Correctness of the JSON codec: `jparse` inverts `jstr` -/

theorem ne_of_isDigit {c x : Char} (hc : c.isDigit = true) (hx : x.isDigit = false) :
    c ≠ x := by
  intro e
  rw [e, hx] at hc
  cases hc

theorem encNatAux_eq : ∀ (fuel n : Nat) (acc : Str), n < fuel →
    encNatAux fuel n acc = natDigits n ++ acc := by
  intro fuel
  induction fuel with
  | zero => intro n acc h; omega
  | succ f ih =>
    intro n acc h
    by_cases h10 : n < 10
    · rw [encNatAux, if_pos h10, natDigits, dif_pos h10]
      rfl
    · rw [encNatAux, if_neg h10, natDigits, dif_neg h10,
        ih (n / 10) _ (by omega), List.append_assoc]
      rfl

theorem encNat_eq (n : Nat) : encNat n = natDigits n := by
  have h := encNatAux_eq (n + 1) n [] (by omega)
  simpa [encNat] using h

theorem natDigits_ne_nil (n : Nat) : natDigits n ≠ [] := by
  rw [natDigits]
  split <;> simp

theorem isDigit_digitChar {k : Nat} (h : k < 10) : (digitChar k).isDigit = true := by
  interval_cases k <;> decide

theorem dval_digitChar {k : Nat} (h : k < 10) : dval (digitChar k) = k := by
  interval_cases k <;> decide

theorem natDigits_digits (n : Nat) : ∀ c ∈ natDigits n, c.isDigit = true := by
  induction n using Nat.strongRecOn with
  | ind n ih =>
    intro c hc
    rw [natDigits] at hc
    by_cases h10 : n < 10
    · rw [dif_pos h10, List.mem_singleton] at hc
      exact hc ▸ isDigit_digitChar h10
    · rw [dif_neg h10, List.mem_append] at hc
      refine hc.elim (fun h => ih (n / 10) (by omega) c h) (fun h => ?_)
      rw [List.mem_singleton] at h
      exact h ▸ isDigit_digitChar (by omega)

theorem decDigits_append (xs : Str) (c : Char) :
    decDigits (xs ++ [c]) = 10 * decDigits xs + dval c := by
  simp [decDigits, List.foldl_append]

theorem decDigits_natDigits (n : Nat) : decDigits (natDigits n) = n := by
  induction n using Nat.strongRecOn with
  | ind n ih =>
    rw [natDigits]
    by_cases h10 : n < 10
    · rw [dif_pos h10]
      show decDigits [digitChar n] = n
      simp [decDigits]
      rw [dval_digitChar h10]
    · rw [dif_neg h10, decDigits_append, ih (n / 10) (by omega),
        dval_digitChar (k := n % 10) (by omega)]
      omega

theorem takeDigits_append : ∀ (a b : Str), (∀ c ∈ a, c.isDigit = true) → headOk b →
    takeDigits (a ++ b) = (a, b) := by
  intro a
  induction a with
  | nil =>
    intro b _ hb
    cases b with
    | nil => rfl
    | cons c r => simp only [List.nil_append, takeDigits, headOk] at hb ⊢; rw [if_neg (by simp [hb])]
  | cons c a' ih =>
    intro b ha hb
    have hc : c.isDigit = true := ha c (by simp)
    simp only [List.cons_append, takeDigits, List.append_eq]
    rw [if_pos hc, ih b (fun x hx => ha x (by simp [hx])) hb]

theorem parseNum_encInt (n : Int) (rest : Str) (hok : headOk rest) :
    parseNum (encInt n ++ rest) = some (.num n, rest) := by
  by_cases hn : n < 0
  · rw [encInt, if_pos hn]
    rw [List.cons_append, parseNum]
    simp only [List.head?_cons, List.tail_cons, reduceIte]
    rw [encNat_eq, takeDigits_append _ _ (natDigits_digits _) hok]
    simp only [natDigits_ne_nil, if_false, reduceIte]
    rw [decDigits_natDigits]
    have heq : -((n.natAbs : Nat) : Int) = n := by omega
    rw [heq]
  · rw [encInt, if_neg hn, encNat_eq]
    cases hd : natDigits n.toNat with
    | nil => exact absurd hd (natDigits_ne_nil _)
    | cons d t =>
      have hdig : d.isDigit = true := natDigits_digits n.toNat d (by rw [hd]; simp)
      have hdm : ¬((d :: (t ++ rest)).head? = some '-') := by
        simp only [List.head?_cons, Option.some_inj]
        exact ne_of_isDigit hdig (by decide)
      have htd := takeDigits_append (d :: t) rest (by rw [← hd]; exact natDigits_digits _) hok
      rw [List.cons_append] at htd
      have hne : d :: t ≠ [] := by simp
      rw [List.cons_append, parseNum, if_neg hdm]
      simp only [htd, if_neg hne]
      rw [← hd, decDigits_natDigits]
      have heq : ((n.toNat : Nat) : Int) = n := by omega
      rw [heq]

theorem parseStrChars_quote (f : Nat) (r : Str) :
    parseStrChars (f + 1) ('"' :: r) = some ([], r) := rfl

theorem parseStrChars_escaped (f : Nat) (d : Char) (r2 : Str) :
    parseStrChars (f + 1) ('\\' :: d :: r2) =
      match parseStrChars f r2 with
      | some (cs, r3) => some (d :: cs, r3)
      | none => none := rfl

theorem parseStrChars_other (f : Nat) (c : Char) (r : Str) (h1 : c ≠ '"')
    (h2 : c ≠ '\\') :
    parseStrChars (f + 1) (c :: r) =
      match parseStrChars f r with
      | some (cs, r3) => some (c :: cs, r3)
      | none => none := by
  rw [parseStrChars.eq_def]
  simp only [if_neg h1, if_neg h2]

theorem parseStrChars_esc : ∀ (s : Str) (fuel : Nat) (rest : Str),
    (escStr s ++ '"' :: rest).length ≤ fuel →
    parseStrChars fuel (escStr s ++ '"' :: rest) = some (s, rest) := by
  intro s
  induction s with
  | nil =>
    intro fuel rest h
    simp only [escStr, List.nil_append, List.length_cons] at h ⊢
    cases fuel with
    | zero => omega
    | succ f => exact parseStrChars_quote f rest
  | cons c s' ih =>
    intro fuel rest h
    simp only [escStr] at h ⊢
    by_cases hc : c = '"' ∨ c = '\\'
    · rw [escChar, if_pos hc] at h ⊢
      simp only [List.cons_append, List.nil_append, List.length_cons,
        List.length_append] at h ⊢
      cases fuel with
      | zero => omega
      | succ f =>
        rw [parseStrChars_escaped, ih f rest (by simp; omega)]
    · rw [escChar, if_neg hc] at h ⊢
      push_neg at hc
      simp only [List.cons_append, List.nil_append, List.length_cons,
        List.length_append] at h ⊢
      cases fuel with
      | zero => omega
      | succ f =>
        rw [parseStrChars_other f c _ hc.1 hc.2, ih f rest (by simp; omega)]

theorem encInt_start (n : Int) :
    ∃ c t, encInt n = c :: t ∧ (c = '-' ∨ c.isDigit = true) := by
  by_cases hn : n < 0
  · rw [encInt, if_pos hn]
    exact ⟨'-', _, rfl, Or.inl rfl⟩
  · rw [encInt, if_neg hn, encNat_eq]
    cases hd : natDigits n.toNat with
    | nil => exact absurd hd (natDigits_ne_nil _)
    | cons d t => exact ⟨d, t, rfl, Or.inr (natDigits_digits _ d (by rw [hd]; simp))⟩

theorem jstr_start (v : Json) :
    ∃ c t, jstr v = c :: t ∧ (c ∈ jsonStarts ∨ c.isDigit = true) := by
  cases v with
  | null => exact ⟨'n', _, rfl, Or.inl (by decide)⟩
  | bool b =>
    cases b with
    | true => exact ⟨'t', _, rfl, Or.inl (by decide)⟩
    | false => exact ⟨'f', _, rfl, Or.inl (by decide)⟩
  | num n =>
    obtain ⟨c, t, hct, hc⟩ := encInt_start n
    refine ⟨c, t, hct, ?_⟩
    rcases hc with h | h
    · exact Or.inl (by rw [h]; decide)
    · exact Or.inr h
  | str s => exact ⟨'"', _, rfl, Or.inl (by decide)⟩
  | arr xs =>
    cases xs with
    | nil => exact ⟨'[', _, rfl, Or.inl (by decide)⟩
    | cons x xs' => exact ⟨'[', _, rfl, Or.inl (by decide)⟩
  | obj ms =>
    cases ms with
    | nil => exact ⟨obrace, _, rfl, Or.inl (by decide)⟩
    | cons m ms' =>
      rcases m with ⟨k, v⟩
      exact ⟨obrace, _, rfl, Or.inl (by decide)⟩

theorem jstart_ne {c : Char} (hc : c ∈ jsonStarts ∨ c.isDigit = true) (x : Char)
    (hx1 : x ∉ jsonStarts) (hx2 : x.isDigit = false) : c ≠ x := by
  intro e
  subst e
  rcases hc with h | h
  · exact hx1 h
  · rw [hx2] at h
    cases h

theorem numHead_ne {c : Char} (hc : c = '-' ∨ c.isDigit = true) (x : Char)
    (hx1 : x ≠ '-') (hx2 : x.isDigit = false) : c ≠ x := by
  rcases hc with h | h
  · subst h
    exact fun e => hx1 e.symm
  · exact ne_of_isDigit h hx2

theorem jstrTail_start (xs : List Json) :
    ∃ c t, jstrTail xs = c :: t ∧ (c = ']' ∨ c = ',') := by
  cases xs with
  | nil => exact ⟨']', [], rfl, Or.inl rfl⟩
  | cons x xs' => exact ⟨',', _, rfl, Or.inr rfl⟩

theorem jstrMTail_start (ms : List (Str × Json)) :
    ∃ c t, jstrMTail ms = c :: t ∧ (c = cbrace ∨ c = ',') := by
  cases ms with
  | nil => exact ⟨cbrace, [], rfl, Or.inl rfl⟩
  | cons m ms' =>
    rcases m with ⟨k, v⟩
    exact ⟨',', _, rfl, Or.inr rfl⟩

theorem headOk_jstrTail (xs : List Json) (rest : Str) :
    headOk (jstrTail xs ++ rest) := by
  obtain ⟨c, t, hct, hc⟩ := jstrTail_start xs
  rw [hct, List.cons_append, headOk_cons]
  rcases hc with h | h <;> subst h <;> decide

theorem headOk_jstrMTail (ms : List (Str × Json)) (rest : Str) :
    headOk (jstrMTail ms ++ rest) := by
  obtain ⟨c, t, hct, hc⟩ := jstrMTail_start ms
  rw [hct, List.cons_append, headOk_cons]
  rcases hc with h | h <;> subst h <;> decide

/-! Step equations of the value parser for each concrete head character. -/

theorem parseVal_null (f : Nat) (rest : Str) :
    parseVal (f + 1) ('n' :: 'u' :: 'l' :: 'l' :: rest) = some (.null, rest) := rfl

theorem parseVal_true (f : Nat) (rest : Str) :
    parseVal (f + 1) ('t' :: 'r' :: 'u' :: 'e' :: rest) = some (.bool true, rest) := rfl

theorem parseVal_false (f : Nat) (rest : Str) :
    parseVal (f + 1) ('f' :: 'a' :: 'l' :: 's' :: 'e' :: rest) =
      some (.bool false, rest) := rfl

theorem parseVal_quote (f : Nat) (r : Str) :
    parseVal (f + 1) ('"' :: r) =
      match parseStrChars f r with
      | some (cs, r1) => some (.str cs, r1)
      | none => none := rfl

theorem parseVal_arr (f : Nat) (r : Str) :
    parseVal (f + 1) ('[' :: r) =
      if r.head? = some ']' then some (.arr [], r.tail)
      else
        match parseVal f r with
        | some (v, r1) =>
          match parseTail f r1 with
          | some (vs, r2) => some (.arr (v :: vs), r2)
          | none => none
        | none => none := rfl

theorem parseVal_obj (f : Nat) (r : Str) :
    parseVal (f + 1) (obrace :: r) =
      if r.head? = some cbrace then some (.obj [], r.tail)
      else
        match parseMem f r with
        | some (m, r1) =>
          match parseMTail f r1 with
          | some (ms, r2) => some (.obj (m :: ms), r2)
          | none => none
        | none => none := rfl

theorem parseVal_numHead (f : Nat) (c : Char) (r : Str)
    (hc : c = '-' ∨ c.isDigit = true) :
    parseVal (f + 1) (c :: r) = parseNum (c :: r) := by
  rw [parseVal.eq_def]
  simp only [if_neg (numHead_ne hc 'n' (by decide) (by decide)),
    if_neg (numHead_ne hc 't' (by decide) (by decide)),
    if_neg (numHead_ne hc 'f' (by decide) (by decide)),
    if_neg (numHead_ne hc '"' (by decide) (by decide)),
    if_neg (numHead_ne hc '[' (by decide) (by decide)),
    if_neg (numHead_ne hc obrace (by decide) (by decide)),
    if_pos hc]

theorem parseTail_close (f : Nat) (r : Str) :
    parseTail (f + 1) (']' :: r) = some ([], r) := rfl

theorem parseTail_comma (f : Nat) (r : Str) :
    parseTail (f + 1) (',' :: r) =
      match parseVal f r with
      | some (v, r1) =>
        match parseTail f r1 with
        | some (vs, r2) => some (v :: vs, r2)
        | none => none
      | none => none := rfl

theorem parseMem_quote (f : Nat) (r : Str) :
    parseMem (f + 1) ('"' :: r) =
      match parseStrChars f r with
      | some (k, r1) =>
        if r1.head? = some ':' then
          match parseVal f r1.tail with
          | some (v, r3) => some ((k, v), r3)
          | none => none
        else none
      | none => none := rfl

theorem parseMTail_close (f : Nat) (r : Str) :
    parseMTail (f + 1) (cbrace :: r) = some ([], r) := rfl

theorem parseMTail_comma (f : Nat) (r : Str) :
    parseMTail (f + 1) (',' :: r) =
      match parseMem f r with
      | some (m, r1) =>
        match parseMTail f r1 with
        | some (ms, r2) => some (m :: ms, r2)
        | none => none
      | none => none := rfl

theorem parse_correct : ∀ fuel : Nat,
    (∀ v rest, (jstr v ++ rest).length ≤ fuel → headOk rest →
      parseVal fuel (jstr v ++ rest) = some (v, rest)) ∧
    (∀ xs rest, (jstrTail xs ++ rest).length ≤ fuel → headOk rest →
      parseTail fuel (jstrTail xs ++ rest) = some (xs, rest)) ∧
    (∀ ms rest, (jstrMTail ms ++ rest).length ≤ fuel → headOk rest →
      parseMTail fuel (jstrMTail ms ++ rest) = some (ms, rest)) ∧
    (∀ k v rest, (jstrMem k v ++ rest).length ≤ fuel → headOk rest →
      parseMem fuel (jstrMem k v ++ rest) = some ((k, v), rest)) := by
  intro fuel
  induction fuel with
  | zero =>
    refine ⟨?_, ?_, ?_, ?_⟩
    · intro v rest hlen _
      obtain ⟨c, t, hct, -⟩ := jstr_start v
      rw [hct] at hlen
      simp at hlen
    · intro xs rest hlen _
      obtain ⟨c, t, hct, -⟩ := jstrTail_start xs
      rw [hct] at hlen
      simp at hlen
    · intro ms rest hlen _
      obtain ⟨c, t, hct, -⟩ := jstrMTail_start ms
      rw [hct] at hlen
      simp at hlen
    · intro k v rest hlen _
      rw [jstrMem] at hlen
      simp at hlen
  | succ f ih =>
    obtain ⟨ihV, ihT, ihM, ihK⟩ := ih
    refine ⟨?_, ?_, ?_, ?_⟩
    · intro v rest hlen hok
      cases v with
      | null => exact parseVal_null f rest
      | bool b =>
        cases b with
        | true => exact parseVal_true f rest
        | false => exact parseVal_false f rest
      | num n =>
        obtain ⟨c, t, hct, hc⟩ := encInt_start n
        have hj : jstr (Json.num n) = c :: t := hct
        rw [hj, List.cons_append, parseVal_numHead f c _ hc]
        have hpn := parseNum_encInt n rest hok
        rw [hct, List.cons_append] at hpn
        exact hpn
      | str s =>
        have hj : jstr (Json.str s) ++ rest = '"' :: (escStr s ++ '"' :: rest) := by
          show ('"' :: (escStr s ++ ['"'])) ++ rest = _
          simp [List.append_assoc]
        rw [hj] at hlen ⊢
        rw [parseVal_quote,
          parseStrChars_esc s f rest
            (by simp only [List.length_cons, List.length_append] at hlen ⊢; omega)]
      | arr xs =>
        cases xs with
        | nil => exact rfl
        | cons x xs' =>
          have hj : jstr (Json.arr (x :: xs')) ++ rest =
              '[' :: (jstr x ++ (jstrTail xs' ++ rest)) := by
            show ('[' :: (jstr x ++ jstrTail xs')) ++ rest = _
            simp [List.append_assoc]
          rw [hj] at hlen ⊢
          obtain ⟨c, t, hct, hc⟩ := jstr_start x
          have hh : (jstr x ++ (jstrTail xs' ++ rest)).head? = some c := by
            rw [hct]
            rfl
          rw [parseVal_arr,
            if_neg (by rw [hh]
                       simp only [Option.some_inj]
                       exact jstart_ne hc ']' (by decide) (by decide))]
          simp only [List.length_cons, List.length_append] at hlen
          simp only [ihV x (jstrTail xs' ++ rest)
              (by simp only [List.length_append]; omega) (headOk_jstrTail xs' rest),
            ihT xs' rest (by simp only [List.length_append]; omega) hok]
      | obj ms =>
        cases ms with
        | nil => exact rfl
        | cons m ms' =>
          rcases m with ⟨k, v⟩
          have hj : jstr (Json.obj ((k, v) :: ms')) ++ rest =
              obrace :: (jstrMem k v ++ (jstrMTail ms' ++ rest)) := by
            show (obrace :: '"' :: (escStr k ++ '"' :: ':' :: (jstr v ++ jstrMTail ms'))) ++
                rest = _
            simp [jstrMem, List.append_assoc]
          rw [hj] at hlen ⊢
          have hh : (jstrMem k v ++ (jstrMTail ms' ++ rest)).head? = some '"' := rfl
          rw [parseVal_obj, if_neg (by rw [hh]; decide)]
          simp only [jstrMem, List.cons_append, List.length_cons, List.length_append]
            at hlen
          simp only [ihK k v (jstrMTail ms' ++ rest)
              (by simp only [jstrMem, List.cons_append, List.length_cons,
                    List.length_append]; omega)
              (headOk_jstrMTail ms' rest),
            ihM ms' rest (by simp only [List.length_append]; omega) hok]
    · intro xs rest hlen hok
      cases xs with
      | nil => exact parseTail_close f rest
      | cons x xs' =>
        have hj : jstrTail (x :: xs') ++ rest =
            ',' :: (jstr x ++ (jstrTail xs' ++ rest)) := by
          show (',' :: (jstr x ++ jstrTail xs')) ++ rest = _
          simp [List.append_assoc]
        rw [hj] at hlen ⊢
        rw [parseTail_comma]
        simp only [List.length_cons, List.length_append] at hlen
        simp only [ihV x (jstrTail xs' ++ rest)
            (by simp only [List.length_append]; omega) (headOk_jstrTail xs' rest),
          ihT xs' rest (by simp only [List.length_append]; omega) hok]
    · intro ms rest hlen hok
      cases ms with
      | nil => exact parseMTail_close f rest
      | cons m ms' =>
        rcases m with ⟨k, v⟩
        have hj : jstrMTail ((k, v) :: ms') ++ rest =
            ',' :: (jstrMem k v ++ (jstrMTail ms' ++ rest)) := by
          show (',' :: '"' :: (escStr k ++ '"' :: ':' :: (jstr v ++ jstrMTail ms'))) ++
              rest = _
          simp [jstrMem, List.append_assoc]
        rw [hj] at hlen ⊢
        rw [parseMTail_comma]
        simp only [jstrMem, List.cons_append, List.length_cons, List.length_append]
          at hlen
        simp only [ihK k v (jstrMTail ms' ++ rest)
            (by simp only [jstrMem, List.cons_append, List.length_cons,
                  List.length_append]; omega)
            (headOk_jstrMTail ms' rest),
          ihM ms' rest (by simp only [List.length_append]; omega) hok]
    · intro k v rest hlen hok
      have hj : jstrMem k v ++ rest =
          '"' :: (escStr k ++ '"' :: (':' :: (jstr v ++ rest))) := by
        show ('"' :: (escStr k ++ '"' :: ':' :: jstr v)) ++ rest = _
        simp [List.append_assoc]
      rw [hj] at hlen ⊢
      rw [parseMem_quote,
        parseStrChars_esc k f (':' :: (jstr v ++ rest))
          (by simp only [List.length_cons, List.length_append] at hlen ⊢; omega)]
      simp only [List.length_cons, List.length_append] at hlen
      simp only [List.head?_cons, List.tail_cons, reduceIte,
        ihV v rest (by simp only [List.length_append]; omega) hok]

/-- The JSON codec round-trip: parsing a stringified value yields the value
back.  This is the key property behind cache hits returning the originally
cached response. -/
theorem jparse_jstr (v : Json) : jparse (jstr v) = some v := by
  have h := (parse_correct ((jstr v).length + 1)).1 v []
    (by simp) headOk_nil
  rw [List.append_nil] at h
  rw [jparse, h]


/-! ### Behavior of the RedisService operations -/

theorem redisGet_ok (s : RedisService) (key : Str) : ∃ r, s.get key = Except.ok r := by
  rw [RedisService.get]
  split
  · exact ⟨_, rfl⟩
  · split
    · exact ⟨_, rfl⟩
    · exact ⟨_, rfl⟩

theorem redisSet_ok (s : RedisService) (key value : Str) (ttl : Option Nat) :
    ∃ r, s.set key value ttl = Except.ok r := by
  rw [RedisService.set.eq_def]
  split
  · exact ⟨_, rfl⟩
  · split
    · exact ⟨_, rfl⟩
    · exact ⟨_, rfl⟩

theorem redisDel_ok (s : RedisService) (dkey : Str ⊕ List Str) :
    ∃ r, s.del dkey = Except.ok r := by
  rw [RedisService.del.eq_def]
  split
  · exact ⟨_, rfl⟩
  · split
    · exact ⟨_, rfl⟩
    · exact ⟨_, rfl⟩

theorem redisKeys_ok (s : RedisService) (pat : Str) :
    ∃ r, s.keys pat = Except.ok r := by
  rw [RedisService.keys]
  split
  · exact ⟨_, rfl⟩
  · split
    · exact ⟨_, rfl⟩
    · exact ⟨_, rfl⟩

theorem redisGet_unhealthy (s : RedisService) (key : Str) (h : s.isConnected = false) :
    s.get key = .ok (none, s) := by
  rw [RedisService.get]
  simp [RedisService.isHealthy, h]

theorem redisSet_unhealthy (s : RedisService) (key value : Str) (ttl : Option Nat)
    (h : s.isConnected = false) : s.set key value ttl = .ok s := by
  rw [RedisService.set.eq_def]
  simp [RedisService.isHealthy, h]

theorem redisDel_unhealthy (s : RedisService) (dkey : Str ⊕ List Str)
    (h : s.isConnected = false) : s.del dkey = .ok s := by
  rw [RedisService.del.eq_def]
  simp [RedisService.isHealthy, h]

theorem redisKeys_unhealthy (s : RedisService) (pat : Str)
    (h : s.isConnected = false) : s.keys pat = .ok [] := by
  rw [RedisService.keys]
  simp [RedisService.isHealthy, h]

theorem redisGet_throwing (s : RedisService) (key : Str)
    (h : s.client.throwing = true) : s.get key = .ok (none, s) := by
  rw [RedisService.get]
  by_cases hc : s.isConnected = true
  · simp [RedisService.isHealthy, hc, RawClient.get, h]
  · simp [RedisService.isHealthy, Bool.of_not_eq_true hc]

theorem redisSet_throwing (s : RedisService) (key value : Str) (ttl : Option Nat)
    (h : s.client.throwing = true) : s.set key value ttl = .ok s := by
  rw [RedisService.set.eq_def]
  split
  · rfl
  · have hsx : ∀ t v', s.client.setex key t v' = .error connErr := fun t v' => by
      simp [RawClient.setex, h]
    have hst : s.client.set key value = .error connErr := by
      simp [RawClient.set, h]
    rcases ttl with _ | t
    · simp only [hst]
    · by_cases h0 : t ≠ 0
      · simp only [if_pos h0, hsx]
      · simp only [if_neg h0, hst]

theorem redisDel_throwing (s : RedisService) (dkey : Str ⊕ List Str)
    (h : s.client.throwing = true) : s.del dkey = .ok s := by
  rw [RedisService.del.eq_def]
  split
  · rfl
  · have hd : ∀ ks, s.client.del ks = .error connErr := fun ks => by
      simp [RawClient.del, h]
    rcases dkey with k | ks
    · simp only [hd]
    · simp only [hd]

theorem redisKeys_throwing (s : RedisService) (pat : Str)
    (h : s.client.throwing = true) : s.keys pat = .ok [] := by
  rw [RedisService.keys]
  split
  · rfl
  · rw [show s.client.keys pat = .error connErr from by simp [RawClient.keys, h]]

theorem redisGet_found (s : RedisService) (key v : Str)
    (hh : s.isConnected = true) (ht : s.client.throwing = false)
    (hl : kvLookup s.client.kv key = some v) :
    s.get key = .ok (some v,
      { s with client := { s.client with keyspaceHits := s.client.keyspaceHits + 1 } }) := by
  rw [RedisService.get]
  simp [RedisService.isHealthy, hh, RawClient.get, ht, hl]

theorem redisGet_missing (s : RedisService) (key : Str)
    (hh : s.isConnected = true) (ht : s.client.throwing = false)
    (hl : kvLookup s.client.kv key = none) :
    s.get key = .ok (none,
      { s with client := { s.client with
          keyspaceMisses := s.client.keyspaceMisses + 1 } }) := by
  rw [RedisService.get]
  simp [RedisService.isHealthy, hh, RawClient.get, ht, hl]

theorem redisSet_store (s : RedisService) (key value : Str) (t : Nat)
    (hh : s.isConnected = true) (ht : s.client.throwing = false) :
    ∃ tt, s.set key value (some t) =
      .ok { s with client := { s.client with
        kv := (key, value, tt) :: kvRemove s.client.kv key } } ∧
      (t ≠ 0 → tt = some t) := by
  by_cases h0 : t ≠ 0
  · refine ⟨some t, ?_, fun _ => rfl⟩
    rw [RedisService.set.eq_def]
    simp [RedisService.isHealthy, hh, h0, RawClient.setex, ht]
  · refine ⟨none, ?_, fun hcon => absurd hcon h0⟩
    rw [RedisService.set.eq_def]
    simp [RedisService.isHealthy, hh, h0, RawClient.set, ht]

/-! ### Behavior of the interceptor -/

theorem intercept_none (params query : ParamMap) (s : RedisService) (handler : Json) :
    intercept none params query s handler =
      .ok { response := handler, handlerInvoked := true, recordedHit := false,
            recordedMiss := false, redis := s } := rfl

theorem intercept_some (cfg : CacheConfig) (params query : ParamMap)
    (s : RedisService) (handler : Json) :
    intercept (some cfg) params query s handler =
      (match s.get (cfg.keyBuilder params query) with
       | .error e => .error e
       | .ok (cachedData, redis1) =>
         match cachedData with
         | some (c :: cs) =>
           match jparse (c :: cs) with
           | some v =>
             .ok { response := v, handlerInvoked := false, recordedHit := false,
                   recordedMiss := false, redis := redis1 }
           | none => .error parseErrMsg
         | some [] => populateStep cfg (cfg.keyBuilder params query) redis1 handler
         | none => populateStep cfg (cfg.keyBuilder params query) redis1 handler) := rfl

theorem intercept_hit (cfg : CacheConfig) (params query : ParamMap)
    (s s' : RedisService) (payload : Str) (v handler : Json)
    (hget : s.get (cfg.keyBuilder params query) = .ok (some payload, s'))
    (hne : payload ≠ []) (hparse : jparse payload = some v) :
    intercept (some cfg) params query s handler =
      .ok { response := v, handlerInvoked := false, recordedHit := false,
            recordedMiss := false, redis := s' } := by
  rcases payload with _ | ⟨c, cs⟩
  · exact absurd rfl hne
  · rw [intercept_some, hget]
    simp only [hparse]

theorem intercept_corrupt (cfg : CacheConfig) (params query : ParamMap)
    (s s' : RedisService) (payload : Str) (handler : Json)
    (hget : s.get (cfg.keyBuilder params query) = .ok (some payload, s'))
    (hne : payload ≠ []) (hparse : jparse payload = none) :
    intercept (some cfg) params query s handler = .error parseErrMsg := by
  rcases payload with _ | ⟨c, cs⟩
  · exact absurd rfl hne
  · rw [intercept_some, hget]
    simp only [hparse]

theorem intercept_miss (cfg : CacheConfig) (params query : ParamMap)
    (s s' : RedisService) (handler : Json)
    (hget : s.get (cfg.keyBuilder params query) = .ok (none, s')) :
    intercept (some cfg) params query s handler =
      populateStep cfg (cfg.keyBuilder params query) s' handler := by
  rw [intercept_some, hget]

theorem populateStep_truthy (cfg : CacheConfig) (key : Str)
    (redis1 s2 : RedisService) (handler : Json) (htr : jsTruthy handler = true)
    (hset : redis1.set key (jstr handler) (some cfg.ttl) = .ok s2) :
    populateStep cfg key redis1 handler =
      .ok { response := handler, handlerInvoked := true, recordedHit := false,
            recordedMiss := false, redis := s2 } := by
  rw [populateStep, if_pos htr, hset]

theorem populateStep_falsy (cfg : CacheConfig) (key : Str)
    (redis1 : RedisService) (handler : Json) (h : jsTruthy handler = false) :
    populateStep cfg key redis1 handler =
      .ok { response := handler, handlerInvoked := true, recordedHit := false,
            recordedMiss := false, redis := redis1 } := by
  rw [populateStep, if_neg (by simp [h])]

/-! ### Extraction of the native counters from the INFO text -/

theorem isPrefixOf_append_self (l x : List Char) : l.isPrefixOf (l ++ x) = true := by
  induction l with
  | nil => simp [List.isPrefixOf]
  | cons c l' ih => simp [List.isPrefixOf, ih]

theorem digitRunAfter_found (pat : Str) (n : Nat) (tail0 : Str) (htail : headOk tail0) :
    digitRunAfter pat (pat ++ (encNat n ++ tail0)) = some (natDigits n) := by
  rw [digitRunAfter, if_pos (isPrefixOf_append_self pat _), List.drop_left, encNat_eq]
  cases hnd : natDigits n with
  | nil => exact absurd hnd (natDigits_ne_nil n)
  | cons d t =>
    have hdig : d.isDigit = true := natDigits_digits n d (by rw [hnd]; simp)
    have htk := takeDigits_append (d :: t) tail0
      (by rw [← hnd]; exact natDigits_digits n) htail
    rw [List.cons_append] at htk
    rw [List.cons_append]
    simp only [hdig, if_true, htk]

theorem matchCounter_at_head (pat : Str) (hpat : pat ≠ []) (n : Nat) (tail0 : Str)
    (htail : headOk tail0) :
    matchCounter pat (pat ++ (encNat n ++ tail0)) = some (natDigits n) := by
  cases pat with
  | nil => exact absurd rfl hpat
  | cons p0 pt =>
    have hd := digitRunAfter_found (p0 :: pt) n tail0 htail
    rw [List.cons_append] at hd ⊢
    rw [matchCounter]
    simp only [hd]

theorem matchCounter_skip_digits (pat : Str) (p0 : Char) (hp0 : pat.head? = some p0)
    (hp : p0.isDigit = false) :
    ∀ (a : Str), (∀ c ∈ a, c.isDigit = true) → ∀ (b : Str),
      matchCounter pat (a ++ b) = matchCounter pat b := by
  cases pat with
  | nil => simp at hp0
  | cons q qt =>
    rw [List.head?_cons, Option.some_inj] at hp0
    subst hp0
    intro a
    induction a with
    | nil => intro _ b; rw [List.nil_append]
    | cons c a' ih =>
      intro ha b
      have hc : c.isDigit = true := ha c (by simp)
      have hne : (q == c) = false := beq_eq_false_iff_ne.mpr (ne_of_isDigit hc hp).symm
      have hd : digitRunAfter (q :: qt) (c :: (a' ++ b)) = none := by
        rw [digitRunAfter, if_neg (by simp [List.isPrefixOf, hne])]
      rw [List.cons_append, matchCounter]
      simp only [hd]
      exact ih (fun x hx => ha x (by simp [hx])) b

theorem counterValue_hits (h m : Nat) :
    counterValue statsHitsLabel (infoStatsStr h m) = h := by
  rw [counterValue, infoStatsStr,
    matchCounter_at_head statsHitsLabel (by decide) h _
      (by rw [headOk_cons]; decide)]
  simp only [decDigits_natDigits]

theorem counterValue_misses (h m : Nat) :
    counterValue statsMissesLabel (infoStatsStr h m) = m := by
  rw [counterValue, infoStatsStr]
  rw [show matchCounter statsMissesLabel (statsHitsLabel ++
        (encNat h ++ (nl :: (statsMissesLabel ++ (encNat m ++ [nl]))))) =
      matchCounter statsMissesLabel
        (encNat h ++ (nl :: (statsMissesLabel ++ (encNat m ++ [nl])))) from rfl]
  rw [encNat_eq,
    matchCounter_skip_digits statsMissesLabel 'k' rfl (by decide)
      (natDigits h) (natDigits_digits h) _]
  rw [show matchCounter statsMissesLabel
        (nl :: (statsMissesLabel ++ (encNat m ++ [nl]))) =
      matchCounter statsMissesLabel (statsMissesLabel ++ (encNat m ++ [nl])) from rfl]
  rw [matchCounter_at_head statsMissesLabel (by decide) m [nl]
      (by rw [headOk_cons]; decide)]
  simp only [decDigits_natDigits]

theorem takeWhile_append_nl (mem : Str) (hnl : nl ∉ mem) :
    (mem ++ [nl]).takeWhile (fun ch => !(ch == nl)) = mem := by
  induction mem with
  | nil => simp [List.takeWhile]
  | cons c m' ih =>
    have hc : c ≠ nl := fun e => hnl (by rw [e]; exact List.mem_cons_self _ _)
    have hb : (c == nl) = false := beq_eq_false_iff_ne.mpr hc
    simp only [List.cons_append, List.takeWhile, hb, Bool.not_false, List.append_eq]
    rw [ih (fun hm => hnl (List.mem_cons_of_mem _ hm))]

theorem matchToEOL_found (mem : Str) (hnl : nl ∉ mem) (hne : mem ≠ []) :
    matchToEOL memoryLabel (memoryLabel ++ (mem ++ [nl])) = some mem := by
  cases hm : mem with
  | nil => exact absurd hm hne
  | cons d ds =>
    subst hm
    have htw := takeWhile_append_nl (d :: ds) hnl
    rw [show memoryLabel ++ ((d :: ds) ++ [nl]) =
      'u' :: (memoryLabel.tail ++ ((d :: ds) ++ [nl])) from rfl]
    rw [matchToEOL]
    rw [show ('u' :: (memoryLabel.tail ++ ((d :: ds) ++ [nl]))) =
      (memoryLabel ++ ((d :: ds) ++ [nl])) from rfl]
    rw [if_pos (isPrefixOf_append_self memoryLabel _), List.drop_left, htw]

theorem getMemoryUsage_clean (client : RawClient) (ht : client.throwing = false)
    (h1 : jsTrim client.memoryHuman = client.memoryHuman)
    (h2 : nl ∉ client.memoryHuman) (h3 : client.memoryHuman ≠ []) :
    getMemoryUsage client = .ok client.memoryHuman := by
  rw [getMemoryUsage, RawClient.infoMemory]
  simp only [ht, Bool.false_eq_true, if_false, List.append_assoc]
  rw [matchToEOL_found client.memoryHuman h2 h3]
  simp only [h1]
  cases hm : client.memoryHuman with
  | nil => exact absurd hm h3
  | cons d ds => simp

/-! ### Claim theorems -/

/-- C3: no operation of the cache backend client (`get`, `set`, `del`,
`keys`) ever propagates an exception: every call returns `Except.ok`; when
the health flag is false each operation short-circuits to its fallback
(`null`, no-op, no-op, `[]`) without touching the backend state; and when
the underlying client raises, the same fallbacks are returned. -/
theorem c3_backend_never_throws (s sU sT : RedisService) (key value pat : Str)
    (ttl : Option Nat) (dkey : Str ⊕ List Str)
    (hU : sU.isConnected = false) (hT : sT.client.throwing = true) :
    (∃ r, s.get key = Except.ok r) ∧ (∃ r, s.set key value ttl = Except.ok r) ∧
    (∃ r, s.del dkey = Except.ok r) ∧ (∃ r, s.keys pat = Except.ok r) ∧
    (sU.get key = .ok (none, sU) ∧ sU.set key value ttl = .ok sU ∧
      sU.del dkey = .ok sU ∧ sU.keys pat = .ok []) ∧
    (sT.get key = .ok (none, sT) ∧ sT.set key value ttl = .ok sT ∧
      sT.del dkey = .ok sT ∧ sT.keys pat = .ok []) :=
  ⟨redisGet_ok s key, redisSet_ok s key value ttl, redisDel_ok s dkey,
   redisKeys_ok s pat,
   ⟨redisGet_unhealthy sU key hU, redisSet_unhealthy sU key value ttl hU,
    redisDel_unhealthy sU dkey hU, redisKeys_unhealthy sU pat hU⟩,
   ⟨redisGet_throwing sT key hT, redisSet_throwing sT key value ttl hT,
    redisDel_throwing sT dkey hT, redisKeys_throwing sT pat hT⟩⟩

theorem c3_witness :
    redisDown.get keySample = Except.ok (none, redisDown) ∧
    redisDown.keys ['*'] = Except.ok [] ∧
    (∃ r, redisHealthy.set keySample (jstr userValue) (some 300) = Except.ok r) := by
  have h := c3_backend_never_throws redisHealthy redisDown redisDown keySample
    (jstr userValue) ['*'] (some 300) (Sum.inl keySample) rfl rfl
  exact ⟨h.2.2.2.2.2.1, h.2.2.2.2.2.2.2.2, h.2.1⟩

theorem append_colon_inj : ∀ (a b x y : Str), ':' ∉ a → ':' ∉ b →
    (a ++ ':' :: x = b ++ ':' :: y ↔ a = b ∧ x = y) := by
  intro a
  induction a with
  | nil =>
    intro b x y _ hb
    cases b with
    | nil => simp
    | cons d b' =>
      simp only [List.nil_append, List.cons_append]
      constructor
      · intro h
        injection h with h1 h2
        exact absurd (h1 ▸ List.mem_cons_self d b') hb
      · rintro ⟨h, -⟩
        cases h
  | cons c a' ih =>
    intro b x y ha hb
    cases b with
    | nil =>
      simp only [List.cons_append, List.nil_append]
      constructor
      · intro h
        injection h with h1 h2
        exact absurd (h1.symm ▸ List.mem_cons_self c a') ha
      · rintro ⟨h, -⟩
        cases h
    | cons d b' =>
      have ha' : ':' ∉ a' := fun hm => ha (List.mem_cons_of_mem _ hm)
      have hb' : ':' ∉ b' := fun hm => hb (List.mem_cons_of_mem _ hm)
      simp only [List.cons_append, List.cons.injEq, and_assoc,
        ih b' x y ha' hb']

/-- C7 counterexample: two distinct `(resource, id)` pairs — the resources
differ — whose keys collide, because a resource containing `:` shifts the
boundary: both produce `app:v1:a:b:c`. -/
theorem c7_counterexample :
    CacheKeyBuilder.build ['a', ':', 'b'] (Sum.inl ['c']) =
      CacheKeyBuilder.build ['a'] (Sum.inl ['b', ':', 'c']) ∧
    (['a', ':', 'b'] : Str) ≠ ['a'] :=
  ⟨rfl, by decide⟩

/-- C7 amended: `build` is deterministic (a pure function of the resource and
the identifier's string form), and injective on pairs whose resources contain
no `:`; two such keys agree exactly when the resources agree and the
identifiers have the same string form. -/
theorem c7_amended (r1 r2 : Str) (i1 i2 : Str ⊕ Int)
    (h1 : ':' ∉ r1) (h2 : ':' ∉ r2) :
    CacheKeyBuilder.build r1 i1 = CacheKeyBuilder.build r2 i2 ↔
      r1 = r2 ∧ CacheKeyBuilder.idStr i1 = CacheKeyBuilder.idStr i2 := by
  rw [CacheKeyBuilder.build, CacheKeyBuilder.build]
  simp only [CacheKeyBuilder.NAMESPACE, CacheKeyBuilder.VERSION,
    List.append_assoc, List.cons_append, List.nil_append, List.cons.injEq,
    true_and]
  exact append_colon_inj r1 r2 _ _ h1 h2

theorem c7_witness :
    CacheKeyBuilder.build ['u', 's', 'e', 'r'] (Sum.inl ['1']) =
        CacheKeyBuilder.build ['u', 's', 'e', 'r'] (Sum.inr 1) ↔
      (['u', 's', 'e', 'r'] : Str) = ['u', 's', 'e', 'r'] ∧
        CacheKeyBuilder.idStr (Sum.inl ['1']) = CacheKeyBuilder.idStr (Sum.inr 1) :=
  c7_amended ['u', 's', 'e', 'r'] ['u', 's', 'e', 'r'] (Sum.inl ['1']) (Sum.inr 1)
    (by decide) (by decide)

/-- C8: `buildList` with omitted pagination parameters produces the same key
as explicit `page 1` / `limit 10`: the destructuring defaults apply before
key construction. -/
theorem c8_buildList_defaults (resource : Str) :
    CacheKeyBuilder.buildList resource {} =
      CacheKeyBuilder.buildList resource { page := some 1, limit := some 10 } := rfl

/-- C9 counterexample: with backend counters 1 hit / 2 misses, the snapshot's
rate is `33.33` (rounded to two decimals by `toFixed(2)`), not the exact
`100/3` the claim's formula gives. -/
theorem c9_counterexample :
    ∃ m, CacheMetricsService.getMetrics svcStats = Except.ok m ∧ m.hits = 1 ∧
      m.misses = 2 ∧
      m.hitRate ≠ ((m.hits : ℚ) / ((m.hits : ℚ) + (m.misses : ℚ))) * 100 := by
  have h1 : svcStats.redis.getClient.infoStats = .ok (infoStatsStr 1 2) := rfl
  have h2 : svcStats.redis.getClient.dbsize = .ok 0 := rfl
  have h3 : getMemoryUsage svcStats.redis.getClient = .ok memSample :=
    getMemoryUsage_clean clientStats rfl rfl (by decide) (by decide)
  refine ⟨{ hits := 1, misses := 2,
            hitRate := round2 (((1 : Nat) : ℚ) / (((3 : Nat) : Nat) : ℚ) * 100),
            totalKeys := 0, memoryUsed := memSample }, ?_, rfl, rfl, ?_⟩
  · rw [CacheMetricsService.getMetrics]
    simp only [h1, h2, h3, counterValue_hits, counterValue_misses]
    norm_num
  · intro heq
    rw [round2] at heq
    generalize ((((1 : Nat) : ℚ) / (((3 : Nat) : Nat) : ℚ) * 100) * 100 + 1 / 2).num /
        (((((1 : Nat) : ℚ) / (((3 : Nat) : Nat) : ℚ) * 100) * 100 + 1 / 2).den : ℤ)
      = z at heq
    push_cast at heq
    field_simp at heq
    have hz : z * 3 = 10000 := by exact_mod_cast heq
    omega

theorem round2_zero : round2 0 = 0 := by norm_num [round2]

/-- C9 amended: `getMetrics` returns the snapshot whose five fields are the
backend's own `keyspace_hits` and `keyspace_misses` (not the process-local
counters), the rate `hits/(hits+misses)*100` rounded to two decimal places
(`toFixed(2)`) and defined as 0 when both counters are 0, the backend key
count, and the backend's reported human-readable memory use. -/
theorem c9_amended (svc : CacheMetricsService)
    (ht : svc.redis.client.throwing = false)
    (h1 : jsTrim svc.redis.client.memoryHuman = svc.redis.client.memoryHuman)
    (h2 : nl ∉ svc.redis.client.memoryHuman)
    (h3 : svc.redis.client.memoryHuman ≠ []) :
    svc.getMetrics = .ok
      { hits := svc.redis.client.keyspaceHits,
        misses := svc.redis.client.keyspaceMisses,
        hitRate :=
          if svc.redis.client.keyspaceHits + svc.redis.client.keyspaceMisses > 0 then
            round2 (((svc.redis.client.keyspaceHits : ℚ) /
              ((svc.redis.client.keyspaceHits + svc.redis.client.keyspaceMisses
                : Nat) : ℚ)) * 100)
          else 0,
        totalKeys := svc.redis.client.kv.length,
        memoryUsed := svc.redis.client.memoryHuman } := by
  rw [CacheMetricsService.getMetrics, RedisService.getClient, RawClient.infoStats,
    RawClient.dbsize]
  simp only [ht, Bool.false_eq_true, if_false]
  simp only [counterValue_hits, counterValue_misses,
    getMemoryUsage_clean svc.redis.client ht h1 h2 h3]
  by_cases hP : svc.redis.client.keyspaceHits + svc.redis.client.keyspaceMisses > 0
  · simp only [hP, if_true]
  · simp only [hP, if_false, round2_zero]

theorem c9_witness :
    svcStats.getMetrics = Except.ok
      { hits := svcStats.redis.client.keyspaceHits,
        misses := svcStats.redis.client.keyspaceMisses,
        hitRate :=
          if svcStats.redis.client.keyspaceHits + svcStats.redis.client.keyspaceMisses
              > 0 then
            round2 (((svcStats.redis.client.keyspaceHits : ℚ) /
              ((svcStats.redis.client.keyspaceHits +
                svcStats.redis.client.keyspaceMisses : Nat) : ℚ)) * 100)
          else 0,
        totalKeys := svcStats.redis.client.kv.length,
        memoryUsed := svcStats.redis.client.memoryHuman } :=
  c9_amended svcStats rfl rfl (by decide) (by decide)

/-- C10: unlike the four guarded operations, `getMetrics` and `resetMetrics`
go through `getClient()` with no health check and no try/catch: on a failing
backend they propagate the raised error to the caller, and on a healthy
connection they succeed even when the health flag is false — while `get`
still degrades to `null` in both situations. -/
theorem c10_metrics_bypass (svcT svcH : CacheMetricsService) (key : Str)
    (hT : svcT.redis.client.throwing = true)
    (hH : svcH.redis.client.throwing = false)
    (hHc : svcH.redis.isConnected = false) :
    svcT.getMetrics = .error connErr ∧
    svcT.resetMetrics = .error connErr ∧
    svcT.redis.get key = .ok (none, svcT.redis) ∧
    (∃ m, svcH.getMetrics = .ok m) ∧
    (∃ r, svcH.resetMetrics = .ok r) ∧
    svcH.redis.get key = .ok (none, svcH.redis) := by
  refine ⟨?_, ?_, redisGet_throwing _ _ hT, ?_, ?_, redisGet_unhealthy _ _ hHc⟩
  · rw [CacheMetricsService.getMetrics, RedisService.getClient, RawClient.infoStats]
    simp only [hT, if_true]
  · rw [CacheMetricsService.resetMetrics, RedisService.getClient,
      RawClient.configResetstat]
    simp only [hT, if_true]
  · rw [CacheMetricsService.getMetrics, RedisService.getClient, RawClient.infoStats,
      RawClient.dbsize]
    simp only [hH, Bool.false_eq_true, if_false]
    rw [getMemoryUsage, RawClient.infoMemory]
    simp only [hH, Bool.false_eq_true, if_false, List.append_assoc]
    rcases hM : matchToEOL memoryLabel
        (memoryLabel ++ (svcH.redis.client.memoryHuman ++ [nl])) with _ | cap
    · simp only [hM]
      exact ⟨_, rfl⟩
    · simp only [hM]
      exact ⟨_, rfl⟩
  · rw [CacheMetricsService.resetMetrics, RedisService.getClient,
      RawClient.configResetstat]
    simp only [hH, Bool.false_eq_true, if_false]
    exact ⟨_, rfl⟩

theorem c10_witness :
    svcThrowing.getMetrics = Except.error connErr ∧
    svcThrowing.resetMetrics = Except.error connErr ∧
    (∃ m, svcDisconnected.getMetrics = Except.ok m) := by
  have h := c10_metrics_bypass svcThrowing svcDisconnected keySample rfl rfl rfl
  exact ⟨h.1, h.2.1, h.2.2.2.1⟩

theorem jstr_ne_nil (v : Json) : jstr v ≠ [] := by
  obtain ⟨c, t, hct, -⟩ := jstr_start v
  rw [hct]
  simp

/-- C1 (code behavior at the failing input): with a corrupt payload stored
under the derived key, `intercept` raises the `JSON.parse` syntax error
instead of falling back to the handler — there is no try/catch around
`JSON.parse(cachedData)`, contradicting the spec's fail-open requirement. -/
theorem c1_code_behavior :
    intercept (some cfgSample) [] [] redisCorrupt userValue =
      Except.error parseErrMsg := rfl

/-- C2 counterexample: on a cache hit the interceptor never calls the Metrics
Collector's `recordHit` — the run returns the cached value with
`recordedHit = false`, so the claim's "records a hit with the Metrics
Collector" fails at this input. -/
theorem c2_counterexample :
    ¬ (∃ r, intercept (some cfgSample) [] [] redisHit Json.null = Except.ok r ∧
        r.recordedHit = true) := by
  rintro ⟨r, hr, hflag⟩
  obtain ⟨u, hu, hfu⟩ : ∃ u,
      intercept (some cfgSample) [] [] redisHit Json.null = Except.ok u ∧
        u.recordedHit = false := ⟨_, rfl, rfl⟩
  rw [hu] at hr
  cases Except.ok.inj hr
  rw [hfu] at hflag
  cases hflag

/-- C2 amended: with a policy bound and a healthy backend, a non-absent,
non-empty, deserializable value is returned as the response without invoking
the handler, and an absent value leads to invoking the handler — but in
neither case does the interceptor record anything with the Metrics Collector
(`recordedHit`/`recordedMiss` stay false); hits and misses are reflected only
in the backend's native keyspace counters, which the `GET` itself bumps. -/
theorem c2_amended (cfg : CacheConfig) (params query : ParamMap) (s : RedisService)
    (handler v : Json) (payload : Str)
    (hh : s.isConnected = true) (ht : s.client.throwing = false) :
    (kvLookup s.client.kv (cfg.keyBuilder params query) = some payload →
      payload ≠ [] → jparse payload = some v →
      intercept (some cfg) params query s handler = .ok
        { response := v, handlerInvoked := false, recordedHit := false,
          recordedMiss := false,
          redis := { s with client := { s.client with
            keyspaceHits := s.client.keyspaceHits + 1 } } }) ∧
    (kvLookup s.client.kv (cfg.keyBuilder params query) = none →
      ∃ r, intercept (some cfg) params query s handler = .ok r ∧
        r.handlerInvoked = true ∧ r.recordedHit = false ∧ r.recordedMiss = false ∧
        r.response = handler ∧
        r.redis.client.keyspaceMisses = s.client.keyspaceMisses + 1) := by
  constructor
  · intro hl hne hp
    exact intercept_hit cfg params query s _ payload v handler
      (redisGet_found s _ payload hh ht hl) hne hp
  · intro hl
    have hget := redisGet_missing s (cfg.keyBuilder params query) hh ht hl
    by_cases htr : jsTruthy handler = true
    · obtain ⟨tt, hset, -⟩ := redisSet_store
        { s with client := { s.client with
          keyspaceMisses := s.client.keyspaceMisses + 1 } }
        (cfg.keyBuilder params query) (jstr handler) cfg.ttl hh ht
      exact ⟨_, by rw [intercept_miss cfg params query s _ handler hget,
          populateStep_truthy cfg _ _ _ handler htr hset],
        rfl, rfl, rfl, rfl, rfl⟩
    · have hf : jsTruthy handler = false := Bool.eq_false_iff.mpr htr
      exact ⟨_, by rw [intercept_miss cfg params query s _ handler hget,
          populateStep_falsy cfg _ _ handler hf],
        rfl, rfl, rfl, rfl, rfl⟩

theorem c2_witness :
    intercept (some cfgSample) [] [] redisHit Json.null = Except.ok
      { response := userValue, handlerInvoked := false, recordedHit := false,
        recordedMiss := false,
        redis := { redisHit with client := { redisHit.client with
          keyspaceHits := redisHit.client.keyspaceHits + 1 } } } :=
  (c2_amended cfgSample [] [] redisHit Json.null userValue (jstr userValue)
    rfl rfl).1 rfl (jstr_ne_nil userValue) (jparse_jstr userValue)

/-- C4: the cached serialization round-trips (`jparse (jstr d) = some d`),
and after a miss with a truthy handler result, an immediate identical request
hits the populated entry and returns the same response without invoking the
handler again. -/
theorem c4_roundtrip_second_hit (cfg : CacheConfig) (params query : ParamMap)
    (s : RedisService) (d : Json)
    (hh : s.isConnected = true) (ht : s.client.throwing = false)
    (habsent : kvLookup s.client.kv (cfg.keyBuilder params query) = none)
    (htruthy : jsTruthy d = true) :
    jparse (jstr d) = some d ∧
    ∃ r1 r2, intercept (some cfg) params query s d = .ok r1 ∧
      r1.handlerInvoked = true ∧ r1.response = d ∧
      intercept (some cfg) params query r1.redis d = .ok r2 ∧
      r2.handlerInvoked = false ∧ r2.response = r1.response := by
  refine ⟨jparse_jstr d, ?_⟩
  have hget1 := redisGet_missing s (cfg.keyBuilder params query) hh ht habsent
  obtain ⟨tt, hset, -⟩ := redisSet_store
    { s with client := { s.client with
      keyspaceMisses := s.client.keyspaceMisses + 1 } }
    (cfg.keyBuilder params query) (jstr d) cfg.ttl hh ht
  have hrun1 : intercept (some cfg) params query s d = .ok
      { response := d, handlerInvoked := true, recordedHit := false,
        recordedMiss := false,
        redis := { s with client := { s.client with
          keyspaceMisses := s.client.keyspaceMisses + 1,
          kv := (cfg.keyBuilder params query, jstr d, tt) ::
            kvRemove s.client.kv (cfg.keyBuilder params query) } } } := by
    rw [intercept_miss cfg params query s _ d hget1,
      populateStep_truthy cfg _ _ _ d htruthy hset]
  have hlk2 : kvLookup
      ({ s with client := { s.client with
        keyspaceMisses := s.client.keyspaceMisses + 1,
        kv := (cfg.keyBuilder params query, jstr d, tt) ::
          kvRemove s.client.kv (cfg.keyBuilder params query) } }
        : RedisService).client.kv (cfg.keyBuilder params query) =
      some (jstr d) := by
    simp [kvLookup]
  have hget2 := redisGet_found
    ({ s with client := { s.client with
      keyspaceMisses := s.client.keyspaceMisses + 1,
      kv := (cfg.keyBuilder params query, jstr d, tt) ::
        kvRemove s.client.kv (cfg.keyBuilder params query) } } : RedisService)
    (cfg.keyBuilder params query) (jstr d) hh ht hlk2
  have hrun2 := intercept_hit cfg params query
    ({ s with client := { s.client with
      keyspaceMisses := s.client.keyspaceMisses + 1,
      kv := (cfg.keyBuilder params query, jstr d, tt) ::
        kvRemove s.client.kv (cfg.keyBuilder params query) } } : RedisService)
    _ (jstr d) d d hget2 (jstr_ne_nil d) (jparse_jstr d)
  exact ⟨_, _, hrun1, rfl, rfl, hrun2, rfl, rfl⟩

theorem c4_witness :
    jparse (jstr userValue) = some userValue ∧
    ∃ r1 r2, intercept (some cfgSample) [] [] redisHealthy userValue = .ok r1 ∧
      r1.handlerInvoked = true ∧ r1.response = userValue ∧
      intercept (some cfgSample) [] [] r1.redis userValue = .ok r2 ∧
      r2.handlerInvoked = false ∧ r2.response = r1.response :=
  c4_roundtrip_second_hit cfgSample [] [] redisHealthy userValue rfl rfl rfl rfl

/-- C5: on a miss, an empty-collection handler result is serialized and
stored under the derived key with the resolved TTL, while a `null` handler
result causes no backend write at all. -/
theorem c5_empty_cached_null_not (cfg : CacheConfig) (params query : ParamMap)
    (s : RedisService)
    (hh : s.isConnected = true) (ht : s.client.throwing = false)
    (habsent : kvLookup s.client.kv (cfg.keyBuilder params query) = none)
    (httl : cfg.ttl ≠ 0) :
    (∃ r, intercept (some cfg) params query s (Json.arr []) = .ok r ∧
      kvLookupE r.redis.client.kv (cfg.keyBuilder params query) =
        some (jstr (Json.arr []), some cfg.ttl)) ∧
    (∃ r, intercept (some cfg) params query s Json.null = .ok r ∧
      r.redis.client.kv = s.client.kv ∧ r.handlerInvoked = true) := by
  have hget1 := redisGet_missing s (cfg.keyBuilder params query) hh ht habsent
  constructor
  · obtain ⟨tt, hset, htt⟩ := redisSet_store
      { s with client := { s.client with
        keyspaceMisses := s.client.keyspaceMisses + 1 } }
      (cfg.keyBuilder params query) (jstr (Json.arr [])) cfg.ttl hh ht
    refine ⟨_, by rw [intercept_miss cfg params query s _ _ hget1,
        populateStep_truthy cfg _ _ _ (Json.arr []) rfl hset], ?_⟩
    simp [kvLookupE, htt httl]
  · exact ⟨_, by rw [intercept_miss cfg params query s _ _ hget1,
      populateStep_falsy cfg _ _ Json.null rfl], rfl, rfl⟩

theorem c5_witness :
    (∃ r, intercept (some cfgSample) [] [] redisHealthy (Json.arr []) = .ok r ∧
      kvLookupE r.redis.client.kv keySample =
        some (jstr (Json.arr []), some cfgSample.ttl)) ∧
    (∃ r, intercept (some cfgSample) [] [] redisHealthy Json.null = .ok r ∧
      r.redis.client.kv = redisHealthy.client.kv ∧ r.handlerInvoked = true) :=
  c5_empty_cached_null_not cfgSample [] [] redisHealthy rfl rfl rfl (by decide)

/-- C6 counterexample: a handler returning the empty collection `[]` is JS-
truthy, so the interceptor does write a cache entry for the derived key —
the claim's "no cache entry is written" fails at this input (and the next
identical request is a hit, not a handler invocation). -/
theorem c6_counterexample :
    ¬ (∃ r, intercept (some cfgSample) [] [] redisHealthy (Json.arr []) =
          Except.ok r ∧
        kvLookup r.redis.client.kv keySample = none) := by
  rintro ⟨r, hr, hlook⟩
  obtain ⟨u, hu, hlu⟩ : ∃ u,
      intercept (some cfgSample) [] [] redisHealthy (Json.arr []) = Except.ok u ∧
        kvLookup u.redis.client.kv keySample = some (jstr (Json.arr [])) :=
    ⟨_, rfl, rfl⟩
  rw [hu] at hr
  cases Except.ok.inj hr
  rw [hlu] at hlook
  cases hlook

/-- C6 amended: a JS-falsy handler result — `null`/`undefined`, `false`, `0`
or the empty string, but not an empty collection — is not cached: no entry is
written for the derived key, and an immediately following identical request
misses again and invokes the handler again. -/
theorem c6_amended (cfg : CacheConfig) (params query : ParamMap) (s : RedisService)
    (d : Json)
    (hh : s.isConnected = true) (ht : s.client.throwing = false)
    (habsent : kvLookup s.client.kv (cfg.keyBuilder params query) = none)
    (hfalsy : jsTruthy d = false) :
    ∃ r1 r2, intercept (some cfg) params query s d = .ok r1 ∧
      r1.handlerInvoked = true ∧ r1.redis.client.kv = s.client.kv ∧
      intercept (some cfg) params query r1.redis d = .ok r2 ∧
      r2.handlerInvoked = true := by
  have hget1 := redisGet_missing s (cfg.keyBuilder params query) hh ht habsent
  have hrun1 : intercept (some cfg) params query s d = .ok
      { response := d, handlerInvoked := true, recordedHit := false,
        recordedMiss := false,
        redis := { s with client := { s.client with
          keyspaceMisses := s.client.keyspaceMisses + 1 } } } := by
    rw [intercept_miss cfg params query s _ d hget1, populateStep_falsy cfg _ _ d hfalsy]
  have hget2 := redisGet_missing
    { s with client := { s.client with
      keyspaceMisses := s.client.keyspaceMisses + 1 } }
    (cfg.keyBuilder params query) hh ht habsent
  have hrun2 : intercept (some cfg) params query
      ({ s with client := { s.client with
        keyspaceMisses := s.client.keyspaceMisses + 1 } } : RedisService) d = .ok
      { response := d, handlerInvoked := true, recordedHit := false,
        recordedMiss := false,
        redis := { s with client := { s.client with
          keyspaceMisses := s.client.keyspaceMisses + 1 + 1 } } } := by
    rw [intercept_miss cfg params query _ _ d hget2, populateStep_falsy cfg _ _ d hfalsy]
  exact ⟨_, _, hrun1, rfl, rfl, hrun2, rfl⟩

theorem c6_witness :
    ∃ r1 r2, intercept (some cfgSample) [] [] redisHealthy Json.null = .ok r1 ∧
      r1.handlerInvoked = true ∧ r1.redis.client.kv = redisHealthy.client.kv ∧
      intercept (some cfgSample) [] [] r1.redis Json.null = .ok r2 ∧
      r2.handlerInvoked = true :=
  c6_amended cfgSample [] [] redisHealthy Json.null rfl rfl rfl rfl

end RedisCaching
